import Mathlib

/-!
Verification development for the box-office scraping pipeline
(`DataScrapping.py`).  The Python source is shallowly embedded:

* `create_safe_filename` is modelled on `List Char` (Python strings),
  with `str.replace` of a single character modelled as removal/`map`
  and `str.replace("__", "_")` modelled by `collapseOnce`, which
  performs Python's single left-to-right non-overlapping pass.
* `scrape_daily_box_office` is modelled against an oracle describing
  what each of the two candidate URLs returns (`UrlOutcome`): a
  `requests` exception (caught by the inner `except` and skipped), any
  other exception during fetch/parse (which escapes the `for` loop and
  is caught by the outer `except`), or a fetched page (`Doc`).  Rows of
  the HTML table are lists of cell strings; Python dicts built by
  `dict(zip(headers, row))` are modelled by `dictOfPairs` with Python's
  insert-or-overwrite semantics.
* `parallel_scrape_movies` is modelled as a sequential loop over
  batches.  Thread-pool concurrency is observable only through the
  order in which `as_completed` yields the per-entry results; that
  order is abstracted by a parameter `sigma : Nat → _ → _` applied to
  each batch's submitted entries (legitimate orders are permutations).
  The two `to_csv` calls after each batch can raise; this is modelled
  by the oracle `persistOk : Nat → Bool`, and a raised exception aborts
  the remaining batches (`aborted = some _`), exactly as the unguarded
  Python calls do.  The `max_workers` argument has no other observable
  effect and is carried as an unused parameter.  File writes inside
  `process_movie_batch` are assumed to succeed, and `os.path.relpath`
  is not modelled: only the presence and distinctness of output
  locations matter to the claims.  The fields `fetched`, `batches` and
  `batchNums` of `RunState` are ghost instrumentation recording which
  entries were submitted to the fetcher, grouped by batch.
-/

/-! ## Filename sanitisation (`create_safe_filename`) -/

def invalid_chars : List Char :=
  ['<', '>', ':', '"', '/', '\\', '|', '?', '*', '\'']

/-- One `safe_name.replace(char, '')` step: removing every occurrence
of a single character. -/
def removeChar (s : List Char) (c : Char) : List Char :=
  s.filter (fun x => x ≠ c)

/-- The `for char in invalid_chars: safe_name = safe_name.replace(char, '')`
loop. -/
def removeInvalid (s : List Char) : List Char :=
  invalid_chars.foldl removeChar s

/-- `safe_name.replace(' ', '_')`: every space becomes an underscore. -/
def spaceToSep (s : List Char) : List Char :=
  s.map (fun c => if c = ' ' then '_' else c)

/-- `safe_name.replace('__', '_')`: Python's single left-to-right pass
replacing non-overlapping occurrences of `"__"` by `"_"`. -/
def collapseOnce : List Char → List Char
  | [] => []
  | [c] => [c]
  | c₁ :: c₂ :: rest =>
    if c₁ = '_' ∧ c₂ = '_' then '_' :: collapseOnce rest
    else c₁ :: collapseOnce (c₂ :: rest)

/-- `safe_name.rstrip('.')`: strip all trailing periods. -/
def rstripDot (s : List Char) : List Char :=
  (s.reverse.dropWhile (fun c => c = '.')).reverse

/-- `create_safe_filename` from the source, on the character list of the
movie name. -/
def create_safe_filename (movie_name : List Char) : List Char :=
  rstripDot (collapseOnce (spaceToSep (removeInvalid movie_name)))

/-- Detects two consecutive separator characters. -/
def hasDouble : List Char → Bool
  | c₁ :: c₂ :: rest => (c₁ = '_' && c₂ = '_') || hasDouble (c₂ :: rest)
  | _ => false

/-- Detects three consecutive separator characters. -/
def hasTriple : List Char → Bool
  | c₁ :: c₂ :: c₃ :: rest =>
    (c₁ = '_' && c₂ = '_' && c₃ = '_') || hasTriple (c₂ :: c₃ :: rest)
  | _ => false

/-- `os.path.join(output_folder, f"{safe_movie_name}_daily.csv")`: the
per-entry output location written by a worker. -/
def movie_filename (output_folder : List Char) (movie_name : String) : List Char :=
  output_folder ++ '/' :: (create_safe_filename movie_name.data ++ ("_daily.csv").data)

/-! ## The Fetcher (`scrape_daily_box_office`) -/

/-- One scraped observation: a Python dict from column name to cell
value, as an association list in key-insertion order. -/
abbrev Record := List (String × String)

/-- Python dict assignment `d[k] = v`: overwrite in place if the key
exists, else append. -/
def dictSet (d : Record) (k v : String) : Record :=
  if d.any (fun kv => kv.1 = k) then
    d.map (fun kv => if kv.1 = k then (k, v) else kv)
  else d ++ [(k, v)]

/-- `dict(zip(headers, row))`. -/
def dictOfPairs (l : List (String × String)) : Record :=
  l.foldl (fun d kv => dictSet d kv.1 kv.2) []

/-- `str.replace('$', '').replace(',', '')` applied to the Gross
column's values. -/
def stripDollarCommas (v : String) : String :=
  ⟨(v.data.filter (fun c => c ≠ '$')).filter (fun c => c ≠ ',')⟩

def grossUpdate (r : Record) : Record :=
  r.map (fun kv => if kv.1 = "Gross" then (kv.1, stripDollarCommas kv.2) else kv)

/-- `'Gross' in df.columns` for a frame built from a list of dicts. -/
def hasGrossColumn (recs : List Record) : Bool :=
  recs.any (fun r => r.any (fun kv => kv.1 = "Gross"))

def grossNorm (recs : List Record) : List Record :=
  if hasGrossColumn recs then recs.map grossUpdate else recs

/-- The table following the section heading: the first `tr` (header
cells) and the remaining `tr`s (data rows), each a list of cell
texts. -/
structure Table where
  header : List String
  dataRows : List (List String)
deriving DecidableEq

/-- What one fetched page looks like to the parser. -/
inductive Doc where
  | noHeading
  | headingNoTable
  | headingTable (t : Table)
deriving DecidableEq

/-- The oracle for one candidate URL: a `requests.exceptions.RequestException`
(caught by the inner `except` and logged), any other exception raised
while fetching/parsing this candidate (escapes to the outer `except`),
or a successfully retrieved page. -/
inductive UrlOutcome where
  | requestError (msg : String)
  | exn (msg : String)
  | page (d : Doc)
deriving DecidableEq

/-- `FetchResult`: the `(movie_df, error)` pair returned by the Fetcher,
as a sum. -/
inductive FetchResult where
  | success (records : List Record)
  | failure (msg : String)
deriving DecidableEq

/-- The `all_data` loop: keep rows whose cell count equals the header
count, build the dict, attach `Movie_Name`. -/
def rowRecords (movie_name : String) (t : Table) : List Record :=
  (t.dataRows.filter (fun r => r.length = t.header.length)).map
    (fun r => dictSet (dictOfPairs (t.header.zip r)) "Movie_Name" movie_name)

/-- The body of `for url in urls` for one URL: `.ok none` means fall
through to the next candidate, `.ok (some recs)` means return the
DataFrame, `.error e` means an exception escapes the loop. -/
def tryUrl (movie_name : String) (o : UrlOutcome) : Except String (Option (List Record)) :=
  match o with
  | .requestError _ => .ok none
  | .exn e => .error e
  | .page .noHeading => .ok none
  | .page .headingNoTable => .ok none
  | .page (.headingTable t) =>
    let recs := rowRecords movie_name t
    if recs = [] then .ok none else .ok (some (grossNorm recs))

def urlLoop (movie_name : String) : List UrlOutcome → Except String (Option (List Record))
  | [] => .ok none
  | o :: rest =>
    match tryUrl movie_name o with
    | .error e => .error e
    | .ok (some recs) => .ok (some recs)
    | .ok none => urlLoop movie_name rest

/-- The whole `try:` body of `scrape_daily_box_office`: loop over the
two candidate URLs, then `return None, "No data found"`.  An `.error`
is an exception reaching the outer `except`. -/
def scrape_body (movie_name : String) (release_year : Int)
    (o₁ o₂ : UrlOutcome) : Except String FetchResult :=
  match urlLoop movie_name [o₁, o₂] with
  | .error e => .error e
  | .ok (some recs) => .ok (.success recs)
  | .ok none => .ok (.failure "No data found")

/-- `scrape_daily_box_office`: the outer `except Exception` converts any
escaped exception into `(None, str(e))`. -/
def scrape_daily_box_office (movie_name : String) (release_year : Int)
    (o₁ o₂ : UrlOutcome) : FetchResult :=
  match scrape_body movie_name release_year o₁ o₂ with
  | .ok r => r
  | .error e => .failure e

/-- A candidate URL that yields no parseable section and no fatal
exception: the loop falls through past it. -/
def url_exhausted (movie_name : String) (o : UrlOutcome) : Prop :=
  tryUrl movie_name o = .ok none

/-! ## The Batch Scheduler (`parallel_scrape_movies`) -/

/-- One catalog row: `movie_name`, `release_year` and the
`daily_box_office_path` completion marker (`none` = NaN). -/
structure Entry where
  movie_name : String
  release_year : Int
  daily_box_office_path : Option (List Char)
deriving DecidableEq

/-- The success dict returned by `process_movie_batch`. -/
structure PMSuccess where
  idx : Nat
  movie_name : String
  data : List Record
  path : List Char
deriving DecidableEq

/-- The failure dict returned by `process_movie_batch`. -/
structure PMFailure where
  idx : Nat
  movie_name : String
  error : String
deriving DecidableEq

inductive PMResult where
  | ok (r : PMSuccess)
  | err (e : PMFailure)
deriving DecidableEq

def okData : PMResult → Option (List Record)
  | .ok r => some r.data
  | .err _ => none

def resultIdx : PMResult → Nat
  | .ok r => r.idx
  | .err e => e.idx

/-- One row of `error_log.csv`: `{movie, error, row}`. -/
structure ErrorLogEntry where
  movie : String
  error : String
  row : Nat
deriving DecidableEq

/-- `process_movie_batch` for one submitted entry `(idx, row)`: run the
Fetcher; on success write the per-entry file and report its path, on
failure report the error. -/
def process_movie_batch (fetch : String → Int → FetchResult)
    (output_folder : List Char) (md : Nat × Entry) : PMResult :=
  match fetch md.2.movie_name md.2.release_year with
  | .success recs =>
    .ok ⟨md.1, md.2.movie_name, recs, movie_filename output_folder md.2.movie_name⟩
  | .failure e => .err ⟨md.1, md.2.movie_name, e⟩

/-- The coordinator's in-memory state during `parallel_scrape_movies`.
`metadata` is `metadata_df`, `error_log` and `all_movies_data` the two
accumulators; `fetched`, `batches`, `batchNums` are ghost fields
recording the entries submitted to the Fetcher (in submission order),
the same grouped per non-skipped batch, and the numbers of the
non-skipped batches. -/
structure RunState where
  metadata : List Entry
  error_log : List ErrorLogEntry
  all_movies_data : List (List Record)
  fetched : List Nat
  batches : List (List Nat)
  batchNums : List Nat
deriving DecidableEq

/-- `metadata_df.loc[idx, 'daily_box_office_path'] = path`. -/
def setMarker : List Entry → Nat → List Char → List Entry
  | [], _, _ => []
  | e :: es, 0, p => { e with daily_box_office_path := some p } :: es
  | e :: es, n + 1, p => e :: setMarker es n p

/-- The body of the `for future in as_completed(futures)` loop for one
completed result. -/
def applyResult (st : RunState) (r : PMResult) : RunState :=
  match r with
  | .ok s =>
    { st with
      all_movies_data := st.all_movies_data ++ [s.data],
      metadata := setMarker st.metadata s.idx s.path }
  | .err f =>
    { st with error_log := st.error_log ++ [⟨f.movie_name, f.error, f.idx⟩] }

/-- `metadata_df.iloc[a:b].iterrows()`: the rows at positions
`a, …, b-1` (clamped to the frame) paired with their index labels. -/
def iloc (l : List Entry) (a b : Nat) : List (Nat × Entry) :=
  List.zip (List.range' a (b - a)) ((l.drop a).take (b - a))

/-- One iteration of `for batch_num in range(total_batches)`: slice the
raw rows, keep the unprocessed ones, submit them, fold the completed
results in the order given by `sigma`, then save progress (`persistOk`
false = `to_csv` raises). -/
def batchStep (fetch : String → Int → FetchResult)
    (sigma : Nat → List (Nat × Entry) → List (Nat × Entry))
    (persistOk : Nat → Bool) (output_folder : List Char)
    (start_row batch_size : Nat) (st : RunState) (k : Nat) :
    RunState × Option String :=
  let batch_start := start_row + k * batch_size
  let batch_end := min (batch_start + batch_size) st.metadata.length
  let batch_df := iloc st.metadata batch_start batch_end
  let batch_data := batch_df.filter (fun p => p.2.daily_box_office_path = none)
  if batch_data = [] then (st, none)
  else
    let results := (sigma k batch_data).map (process_movie_batch fetch output_folder)
    let st1 : RunState :=
      { st with
        fetched := st.fetched ++ batch_data.map Prod.fst,
        batches := st.batches ++ [batch_data.map Prod.fst],
        batchNums := st.batchNums ++ [k] }
    let st2 := results.foldl applyResult st1
    if persistOk k then (st2, none) else (st2, some "persist failed")

/-- The batch loop; a raised persistence exception (second component
`some _`) aborts the remaining iterations. -/
def runBatchesAux (fetch : String → Int → FetchResult)
    (sigma : Nat → List (Nat × Entry) → List (Nat × Entry))
    (persistOk : Nat → Bool) (output_folder : List Char)
    (start_row batch_size : Nat) :
    Nat → Nat → RunState × Option String → RunState × Option String
  | 0, _, acc => acc
  | n + 1, k, acc =>
    match acc.2 with
    | some e => (acc.1, some e)
    | none =>
      runBatchesAux fetch sigma persistOk output_folder start_row batch_size
        n (k + 1)
        (batchStep fetch sigma persistOk output_folder start_row batch_size acc.1 k)

/-- What `parallel_scrape_movies` leaves behind: the final coordinator
state, the exception that aborted the run (if any), and the combined
dataset (`None` when nothing succeeded or the run aborted). -/
structure RunResult where
  state : RunState
  aborted : Option String
  combined : Option (List Record)
deriving DecidableEq

/-- `parallel_scrape_movies`.  `max_workers` bounds the worker pool; its
only observable effect is the completion order already abstracted by
`sigma`. -/
def parallel_scrape_movies (fetch : String → Int → FetchResult)
    (sigma : Nat → List (Nat × Entry) → List (Nat × Entry))
    (persistOk : Nat → Bool) (output_folder : List Char)
    (metadata_df : List Entry) (start_row batch_size max_workers : Nat) :
    RunResult :=
  let total_rows := metadata_df.length - start_row
  let total_batches := (total_rows + batch_size - 1) / batch_size
  let init : RunState := ⟨metadata_df, [], [], [], [], []⟩
  let res := runBatchesAux fetch sigma persistOk output_folder start_row batch_size
    total_batches 0 (init, none)
  { state := res.1
    aborted := res.2
    combined :=
      match res.2 with
      | some _ => none
      | none =>
        if res.1.all_movies_data = [] then none
        else some res.1.all_movies_data.join }

/-! ## Specification-side descriptions -/

/-- Start row of batch `k`. -/
def bStart (start_row batch_size k : Nat) : Nat := start_row + k * batch_size

/-- End row of batch `k` (clamped to the catalog). -/
def bEnd (start_row batch_size len k : Nat) : Nat :=
  min (bStart start_row batch_size k + batch_size) len

/-- The unprocessed entries among raw rows `[a, b)` of `md`. -/
def filtSlice (md : List Entry) (a b : Nat) : List (Nat × Entry) :=
  (iloc md a b).filter (fun p => p.2.daily_box_office_path = none)

def filtIdx (md : List Entry) (a b : Nat) : List Nat :=
  (filtSlice md a b).map Prod.fst

/-- The Item Filter of the spec: indices of the entries at or after
`start_row` whose completion marker is absent. -/
def filteredIndices (md : List Entry) (start_row : Nat) : List Nat :=
  filtIdx md start_row md.length

/-- The entries batches `k, …, k+n-1` submit, concatenated (computed
from the run's initial catalog). -/
def fetchedSpec (md : List Entry) (start_row batch_size : Nat) : Nat → Nat → List Nat
  | _, 0 => []
  | k, n + 1 =>
    filtIdx md (bStart start_row batch_size k) (bEnd start_row batch_size md.length k) ++
      fetchedSpec md start_row batch_size (k + 1) n

/-- The per-batch submitted index lists of batches `k, …, k+n-1`,
skipped batches omitted. -/
def batchesSpec (md : List Entry) (start_row batch_size : Nat) : Nat → Nat → List (List Nat)
  | _, 0 => []
  | k, n + 1 =>
    (let b := filtIdx md (bStart start_row batch_size k) (bEnd start_row batch_size md.length k)
     if b = [] then [] else [b]) ++
      batchesSpec md start_row batch_size (k + 1) n

/-- The record sets appended to `all_movies_data` by batches
`k, …, k+n-1`, in completion order. -/
def amdSpec (fetch : String → Int → FetchResult)
    (sigma : Nat → List (Nat × Entry) → List (Nat × Entry))
    (output_folder : List Char) (md : List Entry)
    (start_row batch_size : Nat) : Nat → Nat → List (List Record)
  | _, 0 => []
  | k, n + 1 =>
    ((sigma k (filtSlice md (bStart start_row batch_size k)
        (bEnd start_row batch_size md.length k))).map
      (process_movie_batch fetch output_folder)).filterMap okData ++
      amdSpec fetch sigma output_folder md start_row batch_size (k + 1) n

/-- A fetcher on which every entry succeeds. -/
def allSuccess (fetch : String → Int → FetchResult) : Prop :=
  ∀ nm yr, ∃ recs, fetch nm yr = FetchResult.success recs

/-- Row `i` of the catalog exists and carries a completion marker. -/
def markedAt (md : List Entry) (i : Nat) : Prop :=
  ∃ e, md[i]? = some e ∧ e.daily_box_office_path.isSome = true

/-! ## Lemmas about filename sanitisation -/

theorem collapseOnce_cons_ne {c : Char} (t : List Char) (h : c ≠ '_') :
    collapseOnce (c :: t) = c :: collapseOnce t := by
  cases t with
  | nil => rfl
  | cons d r =>
    rw [collapseOnce]
    rw [if_neg]
    intro hc
    exact h hc.1

theorem hasDouble_cons_ne {c : Char} (t : List Char) (h : c ≠ '_') :
    hasDouble (c :: t) = hasDouble t := by
  cases t with
  | nil => rfl
  | cons d r =>
    rw [hasDouble]
    simp [h]

theorem hasTriple_of_cons {c : Char} {t : List Char}
    (h : hasTriple (c :: t) = false) : hasTriple t = false := by
  match t with
  | [] => rfl
  | [d] => rfl
  | d :: e :: r =>
    rw [hasTriple] at h
    exact (Bool.or_eq_false_iff.mp h).2

theorem collapseOnce_no_double :
    ∀ s : List Char, hasTriple s = false → hasDouble (collapseOnce s) = false := by
  intro s
  induction s using collapseOnce.induct with
  | case1 => intro _; rfl
  | case2 c => intro _; rfl
  | case3 c₁ c₂ rest h ih =>
    intro ht
    obtain ⟨h1, h2⟩ := h
    subst h1; subst h2
    rw [collapseOnce, if_pos ⟨rfl, rfl⟩]
    cases rest with
    | nil => rfl
    | cons r₁ r' =>
      rw [hasTriple] at ht
      have hr₁ : r₁ ≠ '_' := by
        intro hr; subst hr; simp at ht
      have ht' : hasTriple (r₁ :: r') = false :=
        hasTriple_of_cons (Bool.or_eq_false_iff.mp ht).2
      rw [collapseOnce_cons_ne r' hr₁]
      rw [hasDouble]
      simp only [Bool.or_eq_false_iff]
      constructor
      · simp [hr₁]
      · rw [← collapseOnce_cons_ne r' hr₁]
        exact ih ht'
  | case4 c₁ c₂ rest h ih =>
    intro ht
    have ht' : hasTriple (c₂ :: rest) = false := hasTriple_of_cons ht
    rw [collapseOnce, if_neg h]
    by_cases hc₁ : c₁ = '_'
    · subst hc₁
      have hc₂ : c₂ ≠ '_' := fun hc => h ⟨rfl, hc⟩
      rw [collapseOnce_cons_ne rest hc₂]
      rw [hasDouble]
      simp only [Bool.or_eq_false_iff]
      constructor
      · simp [hc₂]
      · rw [← collapseOnce_cons_ne rest hc₂]
        exact ih ht'
    · rw [hasDouble_cons_ne _ hc₁]
      exact ih ht'

theorem hasDouble_append_left :
    ∀ {l₁ : List Char} (l₂ : List Char), hasDouble l₁ = true → hasDouble (l₁ ++ l₂) = true := by
  intro l₁
  induction l₁ with
  | nil => intro l₂ h; cases h
  | cons c t ih =>
    intro l₂ h
    cases t with
    | nil => cases h
    | cons d r =>
      rw [hasDouble] at h
      rw [List.cons_append, List.cons_append, hasDouble]
      rcases Bool.or_eq_true_iff.mp h with h' | h'
      · rw [h']
        simp
      · have hd := ih l₂ h'
        rw [List.cons_append] at hd
        rw [hd]
        simp

theorem rstripDot_append (s : List Char) : ∃ l₂, s = rstripDot s ++ l₂ := by
  refine ⟨(s.reverse.takeWhile (fun c => c = '.')).reverse, ?_⟩
  rw [rstripDot]
  rw [← List.reverse_append, List.takeWhile_append_dropWhile, List.reverse_reverse]

theorem hasDouble_rstripDot {s : List Char} (h : hasDouble s = false) :
    hasDouble (rstripDot s) = false := by
  obtain ⟨l₂, hs⟩ := rstripDot_append s
  by_contra hd
  rw [Bool.not_eq_false] at hd
  rw [hs, hasDouble_append_left l₂ hd] at h
  cases h

/-- C8 (amended): if, after removing invalid characters and replacing
spaces by separators, the name contains no run of three consecutive
separators, then the sanitized filename contains no two consecutive
separators. -/
theorem c8_sanitizer_no_double_sep (s : List Char)
    (h : hasTriple (spaceToSep (removeInvalid s)) = false) :
    hasDouble (create_safe_filename s) = false := by
  rw [create_safe_filename]
  exact hasDouble_rstripDot (collapseOnce_no_double _ h)

theorem c8_sanitizer_witness :
    hasTriple (spaceToSep (removeInvalid ['a', ' ', 'b', '.'])) = false ∧
      hasDouble (create_safe_filename ['a', ' ', 'b', '.']) = false :=
  ⟨by decide, c8_sanitizer_no_double_sep ['a', ' ', 'b', '.'] (by decide)⟩

/-- C8 counterexample: three consecutive spaces survive the single
`replace('__', '_')` pass as two consecutive separators, so the claimed
"never contains two consecutive separator characters" is false. -/
theorem c8_counterexample :
    create_safe_filename ['a', ' ', ' ', ' ', 'b'] = ['a', '_', '_', 'b'] ∧
      hasDouble (create_safe_filename ['a', ' ', ' ', ' ', 'b']) = true := by
  constructor
  · decide
  · decide

/-- C9 (amended): two entries are written to the same output location
exactly when their identifiers sanitize to the same name; the
sanitization map is not injective, so this can happen for distinct
identifiers. -/
theorem c9_distinct_location_iff (output_folder : List Char) (a b : String) :
    movie_filename output_folder a = movie_filename output_folder b ↔
      create_safe_filename a.data = create_safe_filename b.data := by
  constructor
  · intro h
    rw [movie_filename, movie_filename] at h
    have h1 := List.append_cancel_left h
    have h2 := List.cons.inj h1
    exact List.append_cancel_right h2.2
  · intro h
    rw [movie_filename, movie_filename, h]

theorem c9_location_iff_witness :
    movie_filename ['o'] "A B" = movie_filename ['o'] "A_B" ↔
      create_safe_filename ("A B").data = create_safe_filename ("A_B").data :=
  c9_distinct_location_iff ['o'] "A B" "A_B"

/-- C9 counterexample: the identifiers `"A B"` and `"A_B"` are distinct
but sanitize to the same filename, so two distinct catalog entries can
share an output location. -/
theorem c9_counterexample :
    ("A B" : String) ≠ "A_B" ∧
      movie_filename [] "A B" = movie_filename [] "A_B" := by
  constructor
  · decide
  · decide

/-! ## Lemmas about the Fetcher -/

theorem grossNorm_ne_nil {recs : List Record} (h : recs ≠ []) : grossNorm recs ≠ [] := by
  rw [grossNorm]
  by_cases hg : hasGrossColumn recs
  · rw [if_pos hg]
    simpa using h
  · rw [if_neg hg]
    exact h

theorem tryUrl_eq_some {movie_name : String} {o : UrlOutcome} {r : List Record}
    (h : tryUrl movie_name o = .ok (some r)) :
    ∃ t, o = .page (.headingTable t) ∧ rowRecords movie_name t ≠ [] ∧
      r = grossNorm (rowRecords movie_name t) := by
  cases o with
  | requestError m => cases h
  | exn m => cases h
  | page d =>
    cases d with
    | noHeading => cases h
    | headingNoTable => cases h
    | headingTable t =>
      rw [tryUrl] at h
      by_cases hr : rowRecords movie_name t = []
      · rw [if_pos hr] at h; cases h
      · rw [if_neg hr] at h
        exact ⟨t, rfl, hr, (Option.some.inj (Except.ok.inj h)).symm⟩

theorem urlLoop_eq_some {movie_name : String} {r : List Record} :
    ∀ {os : List UrlOutcome}, urlLoop movie_name os = .ok (some r) →
      ∃ o ∈ os, tryUrl movie_name o = .ok (some r) := by
  intro os
  induction os with
  | nil => intro h; cases h
  | cons o rest ih =>
    intro h
    rw [urlLoop] at h
    match ho : tryUrl movie_name o with
    | .error e => rw [ho] at h; cases h
    | .ok (some recs) =>
      rw [ho] at h
      exact ⟨o, List.mem_cons_self o rest, ho.trans (congrArg _ (congrArg _ (Option.some.inj (Except.ok.inj h))))⟩
    | .ok none =>
      rw [ho] at h
      obtain ⟨o', ho', h'⟩ := ih h
      exact ⟨o', List.mem_cons_of_mem o ho', h'⟩

theorem scrape_success_elim {movie_name : String} {release_year : Int}
    {o₁ o₂ : UrlOutcome} {recs : List Record}
    (h : scrape_daily_box_office movie_name release_year o₁ o₂ = .success recs) :
    urlLoop movie_name [o₁, o₂] = .ok (some recs) := by
  rw [scrape_daily_box_office, scrape_body] at h
  match hu : urlLoop movie_name [o₁, o₂] with
  | .error e => rw [hu] at h; cases h
  | .ok (some r) =>
    rw [hu] at h
    cases h
    rfl
  | .ok none => rw [hu] at h; cases h

/-- C5: the Fetcher never lets an exception reach its caller.  Whenever
the `try:` body raises (`scrape_body` ends in `.error e`), the function
returns `Failure e`; and when both candidate URLs are exhausted without
a parseable section, it returns `Failure "No data found"`. -/
theorem c5_fetcher_never_throws (movie_name : String) (release_year : Int)
    (o₁ o₂ : UrlOutcome) :
    (∀ e, scrape_body movie_name release_year o₁ o₂ = .error e →
      scrape_daily_box_office movie_name release_year o₁ o₂ = .failure e) ∧
    (url_exhausted movie_name o₁ → url_exhausted movie_name o₂ →
      scrape_daily_box_office movie_name release_year o₁ o₂ = .failure "No data found") := by
  constructor
  · intro e he
    rw [scrape_daily_box_office, he]
  · intro h₁ h₂
    rw [url_exhausted] at h₁ h₂
    rw [scrape_daily_box_office, scrape_body, urlLoop, h₁, urlLoop, h₂, urlLoop]

theorem c5_fetcher_witness :
    scrape_daily_box_office "M" 2015 (.exn "boom") (.page .noHeading) = .failure "boom" ∧
      scrape_daily_box_office "M" 2015 (.requestError "404") (.requestError "500") =
        .failure "No data found" :=
  ⟨(c5_fetcher_never_throws "M" 2015 (.exn "boom") (.page .noHeading)).1 "boom" rfl,
   (c5_fetcher_never_throws "M" 2015 (.requestError "404") (.requestError "500")).2 rfl rfl⟩

/-- C6: rows whose cell count differs from the header's are silently
dropped: whenever at least one well-formed row remains, the fetch
succeeds with exactly the records built from the well-formed rows, and
the result is the same as for the table containing only its well-formed
rows. -/
theorem c6_malformed_rows_dropped (movie_name : String) (release_year : Int)
    (t : Table) (o₂ : UrlOutcome)
    (h : t.dataRows.filter (fun r => r.length = t.header.length) ≠ []) :
    scrape_daily_box_office movie_name release_year (.page (.headingTable t)) o₂ =
      .success (grossNorm (rowRecords movie_name t)) ∧
    rowRecords movie_name t =
      rowRecords movie_name
        ⟨t.header, t.dataRows.filter (fun r => r.length = t.header.length)⟩ := by
  have hrec : rowRecords movie_name t ≠ [] := by
    rw [rowRecords]
    simpa using h
  constructor
  · rw [scrape_daily_box_office, scrape_body, urlLoop, tryUrl]
    simp only [if_neg hrec]
  · rw [rowRecords, rowRecords]
    rw [List.filter_filter]
    simp

theorem c6_malformed_rows_witness :
    scrape_daily_box_office "M" 2015
        (.page (.headingTable ⟨["Date", "Rank", "Gross", "Theaters"],
          [["d1", "1", "$1,234", "9"], ["x", "y", "z"]]⟩)) (.page .noHeading) =
      .success (grossNorm (rowRecords "M"
        ⟨["Date", "Rank", "Gross", "Theaters"],
          [["d1", "1", "$1,234", "9"], ["x", "y", "z"]]⟩)) ∧
    rowRecords "M" ⟨["Date", "Rank", "Gross", "Theaters"],
        [["d1", "1", "$1,234", "9"], ["x", "y", "z"]]⟩ =
      rowRecords "M" ⟨["Date", "Rank", "Gross", "Theaters"],
        [["d1", "1", "$1,234", "9"], ["x", "y", "z"]].filter
          (fun r => r.length = (["Date", "Rank", "Gross", "Theaters"] : List String).length)⟩ :=
  c6_malformed_rows_dropped "M" 2015
    ⟨["Date", "Rank", "Gross", "Theaters"], [["d1", "1", "$1,234", "9"], ["x", "y", "z"]]⟩
    (.page .noHeading) (by decide)

/-- C10: a Success always carries at least one record — a table whose
well-formed rows are zero does not produce an empty Success but falls
through to the next candidate, and exhausting both candidates this way
returns `Failure "No data found"`. -/
theorem c10_success_nonempty (movie_name : String) (release_year : Int) :
    (∀ o₁ o₂ recs, scrape_daily_box_office movie_name release_year o₁ o₂ = .success recs →
      recs ≠ []) ∧
    (∀ t₁ t₂ : Table, rowRecords movie_name t₁ = [] → rowRecords movie_name t₂ = [] →
      scrape_daily_box_office movie_name release_year
        (.page (.headingTable t₁)) (.page (.headingTable t₂)) = .failure "No data found") := by
  constructor
  · intro o₁ o₂ recs h
    obtain ⟨o, _, ho⟩ := urlLoop_eq_some (scrape_success_elim h)
    obtain ⟨t, _, hne, hr⟩ := tryUrl_eq_some ho
    rw [hr]
    exact grossNorm_ne_nil hne
  · intro t₁ t₂ h₁ h₂
    rw [scrape_daily_box_office, scrape_body, urlLoop, tryUrl]
    rw [if_pos h₁]
    rw [urlLoop, tryUrl, if_pos h₂, urlLoop]

theorem c10_success_nonempty_witness :
    grossNorm (rowRecords "W" ⟨["A"], [["1"]]⟩) ≠ [] ∧
      scrape_daily_box_office "W" 2012
        (.page (.headingTable ⟨["A"], [["x", "y"]]⟩))
        (.page (.headingTable ⟨["B", "C"], [["z"]]⟩)) = .failure "No data found" :=
  ⟨(c10_success_nonempty "W" 2012).1
      (.page (.headingTable ⟨["A"], [["1"]]⟩)) (.page .noHeading)
      (grossNorm (rowRecords "W" ⟨["A"], [["1"]]⟩)) rfl,
   (c10_success_nonempty "W" 2012).2 ⟨["A"], [["x", "y"]]⟩ ⟨["B", "C"], [["z"]]⟩
      (by decide) (by decide)⟩


/-! ## Basic lemmas about the scheduler state -/

theorem setMarker_length (lc : List Entry) :
    ∀ (i : Nat) (p : List Char), (setMarker lc i p).length = lc.length := by
  induction lc with
  | nil => intro i p; rfl
  | cons e es ih =>
    intro i p
    cases i with
    | zero => rfl
    | succ n => simp [setMarker, ih]

theorem setMarker_getElem (lc : List Entry) :
    ∀ (i : Nat) (p : List Char) (j : Nat), (setMarker lc i p)[j]? =
      if j = i then (lc[j]?).map (fun e => { e with daily_box_office_path := some p })
      else lc[j]? := by
  induction lc with
  | nil => intro i p j; simp [setMarker]
  | cons e es ih =>
    intro i p j
    cases i with
    | zero =>
      cases j with
      | zero => simp [setMarker]
      | succ m => simp [setMarker]
    | succ n =>
      cases j with
      | zero => simp [setMarker]
      | succ m =>
        rw [setMarker, List.getElem?_cons_succ, List.getElem?_cons_succ, ih]
        by_cases hmn : m = n
        · rw [if_pos hmn, if_pos (by omega)]
        · rw [if_neg hmn, if_neg (by omega)]

theorem setMarker_drop (lc : List Entry) (i : Nat) (p : List Char) (B : Nat)
    (h : i < B) : (setMarker lc i p).drop B = lc.drop B := by
  apply List.ext_getElem?
  intro n
  rw [List.getElem?_drop, List.getElem?_drop, setMarker_getElem, if_neg (by omega)]

theorem applyResult_fetched (st : RunState) (r : PMResult) :
    (applyResult st r).fetched = st.fetched := by
  cases r <;> rfl

theorem applyResult_batches (st : RunState) (r : PMResult) :
    (applyResult st r).batches = st.batches := by
  cases r <;> rfl

theorem applyResult_batchNums (st : RunState) (r : PMResult) :
    (applyResult st r).batchNums = st.batchNums := by
  cases r <;> rfl

theorem applyResult_metadata_length (st : RunState) (r : PMResult) :
    (applyResult st r).metadata.length = st.metadata.length := by
  cases r with
  | ok s => simp [applyResult, setMarker_length]
  | err f => rfl

theorem foldl_applyResult_fetched (rs : List PMResult) :
    ∀ st : RunState, (rs.foldl applyResult st).fetched = st.fetched := by
  induction rs with
  | nil => intro st; rfl
  | cons r rs ih => intro st; rw [List.foldl_cons, ih, applyResult_fetched]

theorem foldl_applyResult_batches (rs : List PMResult) :
    ∀ st : RunState, (rs.foldl applyResult st).batches = st.batches := by
  induction rs with
  | nil => intro st; rfl
  | cons r rs ih => intro st; rw [List.foldl_cons, ih, applyResult_batches]

theorem foldl_applyResult_batchNums (rs : List PMResult) :
    ∀ st : RunState, (rs.foldl applyResult st).batchNums = st.batchNums := by
  induction rs with
  | nil => intro st; rfl
  | cons r rs ih => intro st; rw [List.foldl_cons, ih, applyResult_batchNums]

theorem foldl_applyResult_metadata_length (rs : List PMResult) :
    ∀ st : RunState, (rs.foldl applyResult st).metadata.length = st.metadata.length := by
  induction rs with
  | nil => intro st; rfl
  | cons r rs ih => intro st; rw [List.foldl_cons, ih, applyResult_metadata_length]

theorem foldl_applyResult_amd (rs : List PMResult) :
    ∀ st : RunState, (rs.foldl applyResult st).all_movies_data =
      st.all_movies_data ++ rs.filterMap okData := by
  induction rs with
  | nil => intro st; simp
  | cons r rs ih =>
    intro st
    rw [List.foldl_cons, ih]
    cases r with
    | ok s => simp [applyResult, okData]
    | err f => simp [applyResult, okData]

theorem resultIdx_process (fetch : String → Int → FetchResult)
    (output_folder : List Char) (p : Nat × Entry) :
    resultIdx (process_movie_batch fetch output_folder p) = p.1 := by
  cases hf : fetch p.2.movie_name p.2.release_year <;>
    simp [process_movie_batch, hf, resultIdx]

theorem applyResult_metadata_drop (st : RunState) (r : PMResult) (B : Nat)
    (h : resultIdx r < B) :
    (applyResult st r).metadata.drop B = st.metadata.drop B := by
  cases r with
  | ok s => exact setMarker_drop _ _ _ _ h
  | err f => rfl

theorem foldl_applyResult_metadata_drop (rs : List PMResult) :
    ∀ (st : RunState) (B : Nat), (∀ r ∈ rs, resultIdx r < B) →
      (rs.foldl applyResult st).metadata.drop B = st.metadata.drop B := by
  induction rs with
  | nil => intro st B _; rfl
  | cons r rs ih =>
    intro st B h
    rw [List.foldl_cons, ih _ B (fun r' hr' => h r' (List.mem_cons_of_mem r hr')),
      applyResult_metadata_drop _ _ _ (h r (List.mem_cons_self r rs))]

theorem markedAt_applyResult (st : RunState) (r : PMResult) (i : Nat)
    (h : markedAt st.metadata i) : markedAt (applyResult st r).metadata i := by
  cases r with
  | ok s =>
    obtain ⟨e, he, hm⟩ := h
    by_cases hi : i = s.idx
    · subst hi
      refine ⟨{ e with daily_box_office_path := some s.path }, ?_, rfl⟩
      show (setMarker st.metadata s.idx s.path)[s.idx]? = _
      rw [setMarker_getElem, if_pos rfl, he]
      rfl
    · refine ⟨e, ?_, hm⟩
      show (setMarker st.metadata s.idx s.path)[i]? = some e
      rw [setMarker_getElem, if_neg hi]
      exact he
  | err f => exact h

theorem markedAt_foldl (rs : List PMResult) :
    ∀ (st : RunState) (i : Nat), markedAt st.metadata i →
      markedAt (rs.foldl applyResult st).metadata i := by
  induction rs with
  | nil => intro st i h; exact h
  | cons r rs ih =>
    intro st i h
    rw [List.foldl_cons]
    exact ih _ i (markedAt_applyResult st r i h)

theorem foldl_sets_marker (rs : List PMResult) :
    ∀ (st : RunState) (i : Nat),
      (∃ s : PMSuccess, PMResult.ok s ∈ rs ∧ s.idx = i) →
      i < st.metadata.length →
      markedAt (rs.foldl applyResult st).metadata i := by
  induction rs with
  | nil =>
    intro st i h _
    obtain ⟨s, hs, _⟩ := h
    cases hs
  | cons r rs ih =>
    intro st i h hlen
    obtain ⟨s, hs, hidx⟩ := h
    rw [List.foldl_cons]
    rcases List.mem_cons.mp hs with heq | hmem
    · subst heq
      apply markedAt_foldl
      have hsome := List.getElem?_eq_getElem hlen
      refine ⟨{ st.metadata[i] with daily_box_office_path := some s.path }, ?_, rfl⟩
      show (setMarker st.metadata s.idx s.path)[i]? = _
      rw [setMarker_getElem, if_pos hidx.symm, hsome]
      rfl
    · exact ih _ i ⟨s, hmem, hidx⟩ (by rw [applyResult_metadata_length]; exact hlen)

/-! ## Lemmas about `iloc` -/

theorem zip_getElem {α β : Type} (l₁ : List α) :
    ∀ (l₂ : List β) (j : Nat), (l₁.zip l₂)[j]? =
      (l₁[j]?).bind (fun x => (l₂[j]?).map (fun y => (x, y))) := by
  induction l₁ with
  | nil => intro l₂ j; simp
  | cons x xs ih =>
    intro l₂ j
    cases l₂ with
    | nil => simp
    | cons y ys =>
      cases j with
      | zero => simp [List.zip_cons_cons]
      | succ m => simp [List.zip_cons_cons, ih]

theorem iloc_getElem (l : List Entry) (a b j : Nat) (h : j < b - a) :
    (iloc l a b)[j]? = (l[a + j]?).map (fun e => (a + j, e)) := by
  rw [iloc, zip_getElem, List.getElem?_range' _ _ h, List.getElem?_take,
    if_pos h, List.getElem?_drop]
  cases he : l[a + j]? with
  | none => simp [he]
  | some e => simp [he]

theorem iloc_length_le (l : List Entry) (a b : Nat) :
    (iloc l a b).length ≤ b - a := by
  rw [iloc, List.length_zip, List.length_range']
  exact min_le_left _ _

theorem mem_iloc {l : List Entry} {a b : Nat} {p : Nat × Entry}
    (h : p ∈ iloc l a b) : a ≤ p.1 ∧ p.1 < b ∧ l[p.1]? = some p.2 := by
  obtain ⟨j, hj⟩ := List.mem_iff_getElem?.mp h
  have hjlt : j < b - a := by
    by_contra hge
    rw [List.getElem?_eq_none (le_trans (iloc_length_le l a b) (by omega))] at hj
    cases hj
  rw [iloc_getElem l a b j hjlt] at hj
  cases he : l[a + j]? with
  | none => rw [he] at hj; cases hj
  | some e =>
    rw [he] at hj
    simp only [Option.map_some'] at hj
    cases Option.some.inj hj
    refine ⟨?_, ?_, he⟩
    · change a ≤ a + j
      omega
    · change a + j < b
      omega

theorem iloc_mem_of_getElem {l : List Entry} {a b i : Nat} {e : Entry}
    (h1 : a ≤ i) (h2 : i < b) (h3 : l[i]? = some e) : (i, e) ∈ iloc l a b := by
  apply List.getElem?_mem (n := i - a)
  rw [iloc_getElem l a b (i - a) (by omega)]
  have hia : a + (i - a) = i := by omega
  rw [hia, h3]
  rfl

theorem map_fst_zip_sublist {α β : Type} (l₁ : List α) :
    ∀ l₂ : List β, ((l₁.zip l₂).map Prod.fst).Sublist l₁ := by
  induction l₁ with
  | nil => intro l₂; simp
  | cons x xs ih =>
    intro l₂
    cases l₂ with
    | nil => simp
    | cons y ys =>
      rw [List.zip_cons_cons, List.map_cons]
      exact List.Sublist.cons₂ x (ih ys)

theorem filtIdx_nodup (l : List Entry) (a b : Nat) : (filtIdx l a b).Nodup := by
  have h1 : (filtIdx l a b).Sublist (List.range' a (b - a)) := by
    rw [filtIdx, filtSlice, iloc]
    exact List.Sublist.trans
      (List.Sublist.map Prod.fst (List.filter_sublist _))
      (map_fst_zip_sublist _ _)
  exact List.Nodup.sublist h1 (List.nodup_range' _ _)

theorem filtIdx_of_le (l : List Entry) {a b : Nat} (h : b ≤ a) :
    filtIdx l a b = [] := by
  rw [filtIdx, filtSlice, iloc, Nat.sub_eq_zero_of_le h]
  simp

/-! ## Characterising one batch step -/

theorem bStart_succ (start_row batch_size k : Nat) :
    bStart start_row batch_size (k + 1) = bStart start_row batch_size k + batch_size := by
  rw [bStart, bStart, Nat.succ_mul, ← Nat.add_assoc]

theorem drop_of_drop_agree {l₁ l₂ : List Entry} {a b : Nat}
    (h : l₁.drop a = l₂.drop a) (hab : a ≤ b) : l₁.drop b = l₂.drop b := by
  have h1 : l₁.drop b = (l₁.drop a).drop (b - a) := by
    rw [List.drop_drop]
    congr 1
    omega
  have h2 : l₂.drop b = (l₂.drop a).drop (b - a) := by
    rw [List.drop_drop]
    congr 1
    omega
  rw [h1, h2, h]

theorem getElem_of_drop_agree {l₁ l₂ : List Entry} {a i : Nat}
    (h : l₁.drop a = l₂.drop a) (hi : a ≤ i) : l₁[i]? = l₂[i]? := by
  have h1 := List.getElem?_drop l₁ a (i - a)
  have h2 := List.getElem?_drop l₂ a (i - a)
  have hia : a + (i - a) = i := by omega
  rw [hia] at h1 h2
  rw [← h1, ← h2, h]

theorem batchStep_char (fetch : String → Int → FetchResult)
    (sigma : Nat → List (Nat × Entry) → List (Nat × Entry))
    (persistOk : Nat → Bool) (output_folder : List Char)
    (start_row batch_size : Nat) (md : List Entry) (st : RunState) (k : Nat)
    (hlen : st.metadata.length = md.length)
    (hagree : st.metadata.drop (bStart start_row batch_size k) =
      md.drop (bStart start_row batch_size k)) :
    batchStep fetch sigma persistOk output_folder start_row batch_size st k =
      if filtSlice md (bStart start_row batch_size k)
          (bEnd start_row batch_size md.length k) = [] then (st, none)
      else
        if persistOk k then
          (((sigma k (filtSlice md (bStart start_row batch_size k)
                (bEnd start_row batch_size md.length k))).map
              (process_movie_batch fetch output_folder)).foldl applyResult
            { st with
              fetched := st.fetched ++ (filtSlice md (bStart start_row batch_size k)
                (bEnd start_row batch_size md.length k)).map Prod.fst,
              batches := st.batches ++ [(filtSlice md (bStart start_row batch_size k)
                (bEnd start_row batch_size md.length k)).map Prod.fst],
              batchNums := st.batchNums ++ [k] }, none)
        else
          (((sigma k (filtSlice md (bStart start_row batch_size k)
                (bEnd start_row batch_size md.length k))).map
              (process_movie_batch fetch output_folder)).foldl applyResult
            { st with
              fetched := st.fetched ++ (filtSlice md (bStart start_row batch_size k)
                (bEnd start_row batch_size md.length k)).map Prod.fst,
              batches := st.batches ++ [(filtSlice md (bStart start_row batch_size k)
                (bEnd start_row batch_size md.length k)).map Prod.fst],
              batchNums := st.batchNums ++ [k] }, some "persist failed") := by
  simp only [bStart, bEnd] at hagree ⊢
  have hiloc : iloc st.metadata (start_row + k * batch_size)
      (min (start_row + k * batch_size + batch_size) st.metadata.length) =
      iloc md (start_row + k * batch_size)
        (min (start_row + k * batch_size + batch_size) md.length) := by
    rw [iloc, iloc, hlen, hagree]
  simp only [batchStep, hiloc, filtSlice]

theorem batchStep_spec (fetch : String → Int → FetchResult)
    (sigma : Nat → List (Nat × Entry) → List (Nat × Entry))
    (output_folder : List Char) (start_row batch_size : Nat)
    (md : List Entry) (st : RunState) (k : Nat)
    (out1 : RunState) (out2 : Option String)
    (hperm : ∀ k' l', (sigma k' l').Perm l')
    (hlen : st.metadata.length = md.length)
    (hagree : st.metadata.drop (bStart start_row batch_size k) =
      md.drop (bStart start_row batch_size k))
    (hout : batchStep fetch sigma (fun _ => true) output_folder start_row batch_size st k =
      (out1, out2)) :
    out2 = none ∧
    out1.metadata.length = md.length ∧
    out1.metadata.drop (bStart start_row batch_size (k + 1)) =
      md.drop (bStart start_row batch_size (k + 1)) ∧
    out1.fetched = st.fetched ++
      filtIdx md (bStart start_row batch_size k) (bEnd start_row batch_size md.length k) ∧
    out1.batches = st.batches ++
      (if filtIdx md (bStart start_row batch_size k)
          (bEnd start_row batch_size md.length k) = [] then []
       else [filtIdx md (bStart start_row batch_size k)
          (bEnd start_row batch_size md.length k)]) ∧
    out1.all_movies_data = st.all_movies_data ++
      ((sigma k (filtSlice md (bStart start_row batch_size k)
          (bEnd start_row batch_size md.length k))).map
        (process_movie_batch fetch output_folder)).filterMap okData ∧
    (∀ i, markedAt st.metadata i → markedAt out1.metadata i) ∧
    (allSuccess fetch → ∀ i, bStart start_row batch_size k ≤ i →
      i < bEnd start_row batch_size md.length k → markedAt out1.metadata i) := by
  have hble : bEnd start_row batch_size md.length k ≤
      bStart start_row batch_size k + batch_size := by
    rw [bEnd]
    exact min_le_left _ _
  have hblen : bEnd start_row batch_size md.length k ≤ md.length := by
    rw [bEnd]
    exact min_le_right _ _
  have hsucc := bStart_succ start_row batch_size k
  have hord : bStart start_row batch_size k ≤ bStart start_row batch_size (k + 1) := by
    omega
  rw [batchStep_char fetch sigma (fun _ => true) output_folder start_row batch_size md st k
    hlen hagree] at hout
  by_cases hbd : filtSlice md (bStart start_row batch_size k)
      (bEnd start_row batch_size md.length k) = []
  · rw [if_pos hbd] at hout
    injection hout with h1 h2
    subst h1
    subst h2
    have hfi : filtIdx md (bStart start_row batch_size k)
        (bEnd start_row batch_size md.length k) = [] := by
      rw [filtIdx, hbd]
      rfl
    have hsig : sigma k (filtSlice md (bStart start_row batch_size k)
        (bEnd start_row batch_size md.length k)) = [] := by
      rw [hbd]
      exact (hperm k []).eq_nil
    refine ⟨rfl, hlen, ?_, ?_, ?_, ?_, ?_, ?_⟩
    · rw [hsucc]
      exact drop_of_drop_agree hagree (by omega)
    · rw [hfi, List.append_nil]
    · rw [hfi]
      simp
    · rw [hsig]
      simp
    · intro i h
      exact h
    · intro hall i hai hib
      have hib' : i < md.length := lt_of_lt_of_le hib hblen
      have hsome := List.getElem?_eq_getElem hib'
      obtain ⟨e, he⟩ : ∃ e, md[i]? = some e := ⟨_, hsome⟩
      by_cases hmark : e.daily_box_office_path = none
      · exfalso
        have hmem : (i, e) ∈ filtSlice md (bStart start_row batch_size k)
            (bEnd start_row batch_size md.length k) :=
          List.mem_filter.mpr ⟨iloc_mem_of_getElem hai hib he, by simp [hmark]⟩
        rw [hbd] at hmem
        cases hmem
      · have hag : st.metadata[i]? = md[i]? := getElem_of_drop_agree hagree hai
        exact ⟨e, by rw [hag]; exact he, Option.ne_none_iff_isSome.mp hmark⟩
  · rw [if_neg hbd] at hout
    rw [if_pos (show ((fun _ : Nat => true) k) = true from rfl)] at hout
    injection hout with h1 h2
    subst h1
    subst h2
    have hidxlt : ∀ r ∈ (sigma k (filtSlice md (bStart start_row batch_size k)
        (bEnd start_row batch_size md.length k))).map
          (process_movie_batch fetch output_folder),
        resultIdx r < bStart start_row batch_size (k + 1) := by
      intro r hr
      obtain ⟨p, hp, rfl⟩ := List.mem_map.mp hr
      rw [resultIdx_process]
      have hpmem : p ∈ filtSlice md (bStart start_row batch_size k)
          (bEnd start_row batch_size md.length k) := ((hperm k _).mem_iff).mp hp
      have := (mem_iloc (List.mem_filter.mp hpmem).1).2.1
      omega
    refine ⟨rfl, ?_, ?_, ?_, ?_, ?_, ?_, ?_⟩
    · rw [foldl_applyResult_metadata_length]
      exact hlen
    · rw [foldl_applyResult_metadata_drop _ _ _ hidxlt]
      rw [hsucc]
      exact drop_of_drop_agree hagree (by omega)
    · rw [foldl_applyResult_fetched, filtIdx]
    · rw [foldl_applyResult_batches]
      have hfi : filtIdx md (bStart start_row batch_size k)
          (bEnd start_row batch_size md.length k) ≠ [] := by
        rw [filtIdx]
        intro hc
        exact hbd (List.map_eq_nil_iff.mp hc)
      rw [if_neg hfi, filtIdx]
    · rw [foldl_applyResult_amd]
    · intro i h
      exact markedAt_foldl _ _ i h
    · intro hall i hai hib
      have hib' : i < md.length := lt_of_lt_of_le hib hblen
      have hsome := List.getElem?_eq_getElem hib'
      obtain ⟨e, he⟩ : ∃ e, md[i]? = some e := ⟨_, hsome⟩
      by_cases hmark : e.daily_box_office_path = none
      · have hmem : (i, e) ∈ filtSlice md (bStart start_row batch_size k)
            (bEnd start_row batch_size md.length k) :=
          List.mem_filter.mpr ⟨iloc_mem_of_getElem hai hib he, by simp [hmark]⟩
        have hmem2 : (i, e) ∈ sigma k (filtSlice md (bStart start_row batch_size k)
            (bEnd start_row batch_size md.length k)) := ((hperm k _).mem_iff).mpr hmem
        obtain ⟨recs, hrecs⟩ := hall e.movie_name e.release_year
        apply foldl_sets_marker
        · refine ⟨⟨i, e.movie_name, recs, movie_filename output_folder e.movie_name⟩, ?_, rfl⟩
          refine List.mem_map.mpr ⟨(i, e), hmem2, ?_⟩
          simp [process_movie_batch, hrecs]
        · show i < st.metadata.length
          rw [hlen]
          exact hib'
      · have hag : st.metadata[i]? = md[i]? := getElem_of_drop_agree hagree hai
        apply markedAt_foldl
        exact ⟨e, by rw [hag]; exact he, Option.ne_none_iff_isSome.mp hmark⟩

/-! ## The batch loop satisfies its specification -/

theorem runBatchesAux_spec (fetch : String → Int → FetchResult)
    (sigma : Nat → List (Nat × Entry) → List (Nat × Entry))
    (output_folder : List Char) (start_row batch_size : Nat) (md : List Entry)
    (hperm : ∀ k' l', (sigma k' l').Perm l') :
    ∀ (n k : Nat) (st : RunState),
      st.metadata.length = md.length →
      st.metadata.drop (bStart start_row batch_size k) =
        md.drop (bStart start_row batch_size k) →
      (runBatchesAux fetch sigma (fun _ => true) output_folder start_row batch_size
          n k (st, none)).2 = none ∧
      (runBatchesAux fetch sigma (fun _ => true) output_folder start_row batch_size
          n k (st, none)).1.metadata.length = md.length ∧
      (runBatchesAux fetch sigma (fun _ => true) output_folder start_row batch_size
          n k (st, none)).1.metadata.drop (bStart start_row batch_size (k + n)) =
        md.drop (bStart start_row batch_size (k + n)) ∧
      (runBatchesAux fetch sigma (fun _ => true) output_folder start_row batch_size
          n k (st, none)).1.fetched =
        st.fetched ++ fetchedSpec md start_row batch_size k n ∧
      (runBatchesAux fetch sigma (fun _ => true) output_folder start_row batch_size
          n k (st, none)).1.batches =
        st.batches ++ batchesSpec md start_row batch_size k n ∧
      (runBatchesAux fetch sigma (fun _ => true) output_folder start_row batch_size
          n k (st, none)).1.all_movies_data =
        st.all_movies_data ++ amdSpec fetch sigma output_folder md start_row batch_size k n ∧
      (∀ i, markedAt st.metadata i →
        markedAt (runBatchesAux fetch sigma (fun _ => true) output_folder start_row batch_size
          n k (st, none)).1.metadata i) ∧
      (allSuccess fetch → ∀ i, bStart start_row batch_size k ≤ i →
        i < min (bStart start_row batch_size (k + n)) md.length →
        markedAt (runBatchesAux fetch sigma (fun _ => true) output_folder start_row batch_size
          n k (st, none)).1.metadata i) := by
  intro n
  induction n with
  | zero =>
    intro k st hlen hagree
    refine ⟨rfl, hlen, by simpa using hagree, by simp [runBatchesAux, fetchedSpec],
      by simp [runBatchesAux, batchesSpec], by simp [runBatchesAux, amdSpec], fun i h => h, ?_⟩
    intro hall i hai hib
    exfalso
    have h1 : min (bStart start_row batch_size (k + 0)) md.length ≤
        bStart start_row batch_size (k + 0) := min_le_left _ _
    simp only [Nat.add_zero] at h1 hib
    omega
  | succ n ih =>
    intro k st hlen hagree
    rcases hstep : batchStep fetch sigma (fun _ => true) output_folder start_row batch_size st k
      with ⟨o1, o2⟩
    obtain ⟨ho2, holen, hodrop, hofetch, hobatches, hoamd, homono, hocover⟩ :=
      batchStep_spec fetch sigma output_folder start_row batch_size md st k o1 o2 hperm
        hlen hagree hstep
    subst ho2
    have hred : runBatchesAux fetch sigma (fun _ => true) output_folder start_row batch_size
        (n + 1) k (st, none) =
        runBatchesAux fetch sigma (fun _ => true) output_folder start_row batch_size
          n (k + 1) (o1, none) := by
      simp only [runBatchesAux]
      rw [hstep]
    have ihh := ih (k + 1) o1 holen hodrop
    rw [show k + 1 + n = k + (n + 1) from by omega] at ihh
    obtain ⟨ih1, ih2, ih3, ih4, ih5, ih6, ih7, ih8⟩ := ihh
    rw [hred]
    refine ⟨ih1, ih2, ih3, ?_, ?_, ?_, ?_, ?_⟩
    · rw [ih4, hofetch, List.append_assoc]
      rfl
    · rw [ih5, hobatches, List.append_assoc]
      rfl
    · rw [ih6, hoamd, List.append_assoc]
      rfl
    · intro i h
      exact ih7 i (homono i h)
    · intro hall i hai hib
      have hble : bEnd start_row batch_size md.length k ≤
          bStart start_row batch_size k + batch_size := by
        rw [bEnd]
        exact min_le_left _ _
      have hsucc := bStart_succ start_row batch_size k
      by_cases hi1 : i < bEnd start_row batch_size md.length k
      · exact ih7 i (hocover hall i hai hi1)
      · apply ih8 hall i
        · rw [bEnd] at hi1
          have hm1 : min (bStart start_row batch_size (k + (n + 1))) md.length ≤ md.length :=
            min_le_right _ _
          have hm2 : min (bStart start_row batch_size k + batch_size) md.length ≤
            bStart start_row batch_size k + batch_size := min_le_left _ _
          omega
        · exact hib

/-! ## Gluing consecutive batches -/

theorem bStart_mono (start_row batch_size : Nat) {k₁ k₂ : Nat} (h : k₁ ≤ k₂) :
    bStart start_row batch_size k₁ ≤ bStart start_row batch_size k₂ := by
  rw [bStart, bStart]
  exact Nat.add_le_add_left (Nat.mul_le_mul_right _ h) _

theorem iloc_append (l : List Entry) {a m c : Nat} (h1 : a ≤ m) (h2 : m ≤ c)
    (h3 : m ≤ l.length) : iloc l a m ++ iloc l m c = iloc l a c := by
  rw [iloc, iloc, iloc]
  have hlen1 : (List.range' a (m - a)).length = ((l.drop a).take (m - a)).length := by
    rw [List.length_range', List.length_take, List.length_drop]
    omega
  rw [← List.zip_append hlen1]
  congr 1
  · have hr := List.range'_append a (m - a) (c - m) 1
    rw [one_mul, show a + (m - a) = m from by omega,
      show c - m + (m - a) = c - a from by omega] at hr
    exact hr
  · rw [show c - a = (m - a) + (c - m) from by omega, List.take_add]
    congr 1
    rw [List.drop_drop, show a + (m - a) = m from by omega]

theorem filtIdx_append (l : List Entry) {a m c : Nat} (h1 : a ≤ m) (h2 : m ≤ c)
    (h3 : m ≤ l.length) : filtIdx l a m ++ filtIdx l m c = filtIdx l a c := by
  rw [filtIdx, filtIdx, filtIdx, filtSlice, filtSlice, filtSlice,
    ← iloc_append l h1 h2 h3, List.filter_append, List.map_append]

theorem fetchedSpec_glue (md : List Entry) (start_row batch_size : Nat)
    (hbs : 1 ≤ batch_size) :
    ∀ (n k : Nat), fetchedSpec md start_row batch_size k n =
      filtIdx md (bStart start_row batch_size k)
        (min (bStart start_row batch_size (k + n)) md.length) := by
  intro n
  induction n with
  | zero =>
    intro k
    rw [fetchedSpec]
    refine (filtIdx_of_le md ?_).symm
    simpa using min_le_left (bStart start_row batch_size k) md.length
  | succ n ih =>
    intro k
    rw [fetchedSpec, ih (k + 1), show k + 1 + n = k + (n + 1) from by omega]
    have hsucc := bStart_succ start_row batch_size k
    have hmono1 : bStart start_row batch_size (k + 1) ≤
        bStart start_row batch_size (k + (n + 1)) := bStart_mono _ _ (by omega)
    by_cases hc1 : md.length ≤ bStart start_row batch_size k
    · rw [filtIdx_of_le md (show bEnd start_row batch_size md.length k ≤ _ from by
        rw [bEnd]
        have := min_le_right (bStart start_row batch_size k + batch_size) md.length
        omega)]
      rw [filtIdx_of_le md (show min (bStart start_row batch_size (k + (n + 1))) md.length ≤
          bStart start_row batch_size (k + 1) from by
        have := min_le_right (bStart start_row batch_size (k + (n + 1))) md.length
        omega)]
      rw [filtIdx_of_le md (show min (bStart start_row batch_size (k + (n + 1))) md.length ≤
          bStart start_row batch_size k from by
        have := min_le_right (bStart start_row batch_size (k + (n + 1))) md.length
        omega)]
      rfl
    · by_cases hc2 : bStart start_row batch_size k + batch_size ≤ md.length
      · have hbe : bEnd start_row batch_size md.length k =
            bStart start_row batch_size (k + 1) := by
          rw [bEnd, hsucc]
          exact min_eq_left hc2
        rw [hbe]
        refine filtIdx_append md (by omega) ?_ (by omega)
        refine le_min hmono1 (by omega)
      · have hbe : bEnd start_row batch_size md.length k = md.length := by
          rw [bEnd]
          exact min_eq_right (by omega)
        have h2nil : filtIdx md (bStart start_row batch_size (k + 1))
            (min (bStart start_row batch_size (k + (n + 1))) md.length) = [] := by
          refine filtIdx_of_le md ?_
          have := min_le_right (bStart start_row batch_size (k + (n + 1))) md.length
          omega
        have hmin : min (bStart start_row batch_size (k + (n + 1))) md.length = md.length := by
          refine min_eq_right ?_
          omega
        rw [hbe, h2nil, hmin, List.append_nil]

theorem total_batches_covers (len start_row batch_size : Nat) (hbs : 1 ≤ batch_size) :
    len ≤ start_row + ((len - start_row + batch_size - 1) / batch_size) * batch_size := by
  by_cases hls : len ≤ start_row
  · exact le_trans hls (Nat.le_add_right _ _)
  · have h1 := Nat.div_add_mod (len - start_row + batch_size - 1) batch_size
    have h2 : (len - start_row + batch_size - 1) % batch_size < batch_size :=
      Nat.mod_lt _ (by omega)
    rw [Nat.mul_comm]
    generalize hX : batch_size * ((len - start_row + batch_size - 1) / batch_size) = X at h1 ⊢
    omega

/-! ## Unfolding `parallel_scrape_movies` -/

theorem parallel_scrape_movies_state (fetch : String → Int → FetchResult)
    (sigma : Nat → List (Nat × Entry) → List (Nat × Entry))
    (persistOk : Nat → Bool) (output_folder : List Char)
    (metadata_df : List Entry) (start_row batch_size max_workers : Nat) :
    (parallel_scrape_movies fetch sigma persistOk output_folder metadata_df
        start_row batch_size max_workers).state =
      (runBatchesAux fetch sigma persistOk output_folder start_row batch_size
        ((metadata_df.length - start_row + batch_size - 1) / batch_size) 0
        (⟨metadata_df, [], [], [], [], []⟩, none)).1 := rfl

theorem parallel_scrape_movies_aborted (fetch : String → Int → FetchResult)
    (sigma : Nat → List (Nat × Entry) → List (Nat × Entry))
    (persistOk : Nat → Bool) (output_folder : List Char)
    (metadata_df : List Entry) (start_row batch_size max_workers : Nat) :
    (parallel_scrape_movies fetch sigma persistOk output_folder metadata_df
        start_row batch_size max_workers).aborted =
      (runBatchesAux fetch sigma persistOk output_folder start_row batch_size
        ((metadata_df.length - start_row + batch_size - 1) / batch_size) 0
        (⟨metadata_df, [], [], [], [], []⟩, none)).2 := rfl

/-- C1: for every catalog, start offset, batch size ≥ 1 and worker count
≥ 1, and every legitimate completion order, the entries the scheduler
submits to the Fetcher over the whole run are exactly the filtered
entries (at or after the start offset, completion marker absent), each
exactly once (the submission list is precisely the filtered index list,
and it has no duplicates). -/
theorem c1_scheduler_exact_cover (fetch : String → Int → FetchResult)
    (sigma : Nat → List (Nat × Entry) → List (Nat × Entry))
    (output_folder : List Char) (metadata_df : List Entry)
    (start_row batch_size max_workers : Nat)
    (hperm : ∀ k l, (sigma k l).Perm l)
    (hbs : 1 ≤ batch_size) (hmw : 1 ≤ max_workers) :
    (parallel_scrape_movies fetch sigma (fun _ => true) output_folder metadata_df
        start_row batch_size max_workers).state.fetched =
      filteredIndices metadata_df start_row ∧
    (parallel_scrape_movies fetch sigma (fun _ => true) output_folder metadata_df
        start_row batch_size max_workers).state.fetched.Nodup := by
  obtain ⟨h1, h2, h3, h4, h5, h6, h7, h8⟩ :=
    runBatchesAux_spec fetch sigma output_folder start_row batch_size metadata_df hperm
      ((metadata_df.length - start_row + batch_size - 1) / batch_size) 0
      ⟨metadata_df, [], [], [], [], []⟩ rfl rfl
  have hmin : min (bStart start_row batch_size
      (0 + (metadata_df.length - start_row + batch_size - 1) / batch_size))
      metadata_df.length = metadata_df.length := by
    refine min_eq_right ?_
    rw [bStart, Nat.zero_add]
    exact total_batches_covers metadata_df.length start_row batch_size hbs
  have hb0 : bStart start_row batch_size 0 = start_row := by
    rw [bStart]
    omega
  have hfe : (parallel_scrape_movies fetch sigma (fun _ => true) output_folder metadata_df
      start_row batch_size max_workers).state.fetched =
      filteredIndices metadata_df start_row := by
    rw [parallel_scrape_movies_state, h4,
      fetchedSpec_glue metadata_df start_row batch_size hbs, hmin, hb0]
    rw [filteredIndices]
    rfl
  exact ⟨hfe, by rw [hfe, filteredIndices]; exact filtIdx_nodup _ _ _⟩

theorem c1_scheduler_witness :
    (parallel_scrape_movies (fun _ _ => FetchResult.failure "e") (fun _ l => l)
        (fun _ => true) [] [⟨"A", 2015, none⟩, ⟨"B", 2016, some ['p']⟩, ⟨"C", 2017, none⟩]
        0 1 1).state.fetched =
      filteredIndices [⟨"A", 2015, none⟩, ⟨"B", 2016, some ['p']⟩, ⟨"C", 2017, none⟩] 0 ∧
    (parallel_scrape_movies (fun _ _ => FetchResult.failure "e") (fun _ l => l)
        (fun _ => true) [] [⟨"A", 2015, none⟩, ⟨"B", 2016, some ['p']⟩, ⟨"C", 2017, none⟩]
        0 1 1).state.fetched.Nodup :=
  c1_scheduler_exact_cover (fun _ _ => FetchResult.failure "e") (fun _ l => l) []
    [⟨"A", 2015, none⟩, ⟨"B", 2016, some ['p']⟩, ⟨"C", 2017, none⟩] 0 1 1
    (fun _ l => List.Perm.refl l) (by decide) (by decide)

/-! ## C3: batching is over the raw row range, not the filtered subsequence -/

theorem filtIdx_length_le (l : List Entry) (a b : Nat) :
    (filtIdx l a b).length ≤ b - a := by
  rw [filtIdx, List.length_map]
  exact le_trans (List.length_filter_le _ _) (iloc_length_le l a b)

theorem batchesSpec_length_le (md : List Entry) (start_row batch_size : Nat) :
    ∀ (n k : Nat) (bl : List Nat), bl ∈ batchesSpec md start_row batch_size k n →
      bl.length ≤ batch_size := by
  intro n
  induction n with
  | zero =>
    intro k bl h
    rw [batchesSpec] at h
    cases h
  | succ n ih =>
    intro k bl h
    simp only [batchesSpec] at h
    rcases List.mem_append.mp h with h' | h'
    · by_cases hc : filtIdx md (bStart start_row batch_size k)
          (bEnd start_row batch_size md.length k) = []
      · rw [if_pos hc] at h'
        cases h'
      · rw [if_neg hc] at h'
        rw [List.mem_singleton.mp h']
        have hl := filtIdx_length_le md (bStart start_row batch_size k)
          (bEnd start_row batch_size md.length k)
        have hble : bEnd start_row batch_size md.length k ≤
            bStart start_row batch_size k + batch_size := by
          rw [bEnd]
          exact min_le_left _ _
        omega
    · exact ih (k + 1) bl h'

/-- C3 (amended): the scheduler slices the raw catalog row range
`[start_row, len)` into consecutive windows of `batch_size` rows and
each non-skipped batch submits the unprocessed entries of its raw
window (`batchesSpec`); every batch therefore has at most `batch_size`
entries, but it may have fewer even when later unprocessed entries
remain, because the windows are windows of the raw range, not of the
filtered subsequence. -/
theorem c3_raw_range_batching (fetch : String → Int → FetchResult)
    (sigma : Nat → List (Nat × Entry) → List (Nat × Entry))
    (output_folder : List Char) (metadata_df : List Entry)
    (start_row batch_size max_workers : Nat)
    (hperm : ∀ k l, (sigma k l).Perm l)
    (hbs : 1 ≤ batch_size) (hmw : 1 ≤ max_workers) :
    (parallel_scrape_movies fetch sigma (fun _ => true) output_folder metadata_df
        start_row batch_size max_workers).state.batches =
      batchesSpec metadata_df start_row batch_size 0
        ((metadata_df.length - start_row + batch_size - 1) / batch_size) ∧
    ∀ bl ∈ (parallel_scrape_movies fetch sigma (fun _ => true) output_folder metadata_df
        start_row batch_size max_workers).state.batches, bl.length ≤ batch_size := by
  obtain ⟨h1, h2, h3, h4, h5, h6, h7, h8⟩ :=
    runBatchesAux_spec fetch sigma output_folder start_row batch_size metadata_df hperm
      ((metadata_df.length - start_row + batch_size - 1) / batch_size) 0
      ⟨metadata_df, [], [], [], [], []⟩ rfl rfl
  have hb : (parallel_scrape_movies fetch sigma (fun _ => true) output_folder metadata_df
      start_row batch_size max_workers).state.batches =
      batchesSpec metadata_df start_row batch_size 0
        ((metadata_df.length - start_row + batch_size - 1) / batch_size) := by
    rw [parallel_scrape_movies_state, h5]
    rfl
  refine ⟨hb, ?_⟩
  intro bl hbl
  rw [hb] at hbl
  exact batchesSpec_length_le metadata_df start_row batch_size _ 0 bl hbl

theorem c3_raw_range_witness :
    (parallel_scrape_movies (fun _ _ => FetchResult.failure "e") (fun _ l => l)
        (fun _ => true) [] [⟨"A", 2015, some ['p']⟩, ⟨"B", 2015, none⟩]
        0 2 1).state.batches =
      batchesSpec [⟨"A", 2015, some ['p']⟩, ⟨"B", 2015, none⟩] 0 2 0
        ((([⟨"A", 2015, some ['p']⟩, ⟨"B", 2015, none⟩] : List Entry).length - 0 + 2 - 1) / 2) ∧
    ∀ bl ∈ (parallel_scrape_movies (fun _ _ => FetchResult.failure "e") (fun _ l => l)
        (fun _ => true) [] [⟨"A", 2015, some ['p']⟩, ⟨"B", 2015, none⟩]
        0 2 1).state.batches, bl.length ≤ 2 :=
  c3_raw_range_batching (fun _ _ => FetchResult.failure "e") (fun _ l => l) []
    [⟨"A", 2015, some ['p']⟩, ⟨"B", 2015, none⟩] 0 2 1
    (fun _ l => List.Perm.refl l) (by decide) (by decide)

/-- C3 counterexample: with catalog `[A(done), B, C, D]`, start 0 and
batch size 2, the first non-skipped batch submits only `[1]` (the
unprocessed part of raw window `[0, 2)`), while the first slice of
length ≤ 2 of the filtered subsequence `[1, 2, 3]` is `[1, 2]` — so the
k-th batch is not the k-th slice of the filtered subsequence. -/
theorem c3_counterexample :
    (parallel_scrape_movies (fun _ _ => FetchResult.failure "e") (fun _ l => l)
        (fun _ => true) []
        [⟨"A", 2015, some ['p']⟩, ⟨"B", 2015, none⟩, ⟨"C", 2015, none⟩, ⟨"D", 2015, none⟩]
        0 2 1).state.batches = [[1], [2, 3]] ∧
    (filteredIndices [⟨"A", 2015, some ['p']⟩, ⟨"B", 2015, none⟩, ⟨"C", 2015, none⟩,
        ⟨"D", 2015, none⟩] 0).take 2 = [1, 2] ∧
    ([1] : List Nat) ≠ [1, 2] :=
  ⟨by decide, by decide, by decide⟩

/-! ## C2: combined data follows completion order, not catalog order -/

theorem amdSpec_perm (fetch : String → Int → FetchResult)
    (sigma : Nat → List (Nat × Entry) → List (Nat × Entry))
    (output_folder : List Char) (md : List Entry) (start_row batch_size : Nat)
    (hperm : ∀ k l, (sigma k l).Perm l) :
    ∀ n k, (amdSpec fetch sigma output_folder md start_row batch_size k n).Perm
      (amdSpec fetch (fun _ l => l) output_folder md start_row batch_size k n) := by
  intro n
  induction n with
  | zero =>
    intro k
    rw [amdSpec, amdSpec]
  | succ n ih =>
    intro k
    rw [amdSpec, amdSpec]
    exact List.Perm.append
      (List.Perm.filterMap okData (List.Perm.map (process_movie_batch fetch output_folder)
        (hperm k _))) (ih (k + 1))

/-- C2 (amended): the collection of per-entry record sets accumulated
into the combined dataset does not depend on the within-batch completion
order up to permutation — batch by batch it is a permutation of the
catalog-order collection — but its row order follows completion order,
not catalog order (see the counterexample). -/
theorem c2_completion_order_content (fetch : String → Int → FetchResult)
    (sigma : Nat → List (Nat × Entry) → List (Nat × Entry))
    (output_folder : List Char) (metadata_df : List Entry)
    (start_row batch_size max_workers : Nat)
    (hperm : ∀ k l, (sigma k l).Perm l)
    (hbs : 1 ≤ batch_size) (hmw : 1 ≤ max_workers) :
    ((parallel_scrape_movies fetch sigma (fun _ => true) output_folder metadata_df
        start_row batch_size max_workers).state.all_movies_data).Perm
      ((parallel_scrape_movies fetch (fun _ l => l) (fun _ => true) output_folder metadata_df
        start_row batch_size max_workers).state.all_movies_data) ∧
    ((parallel_scrape_movies fetch sigma (fun _ => true) output_folder metadata_df
        start_row batch_size max_workers).state.all_movies_data.flatten).Perm
      ((parallel_scrape_movies fetch (fun _ l => l) (fun _ => true) output_folder metadata_df
        start_row batch_size max_workers).state.all_movies_data.flatten) := by
  obtain ⟨g1, g2, g3, g4, g5, g6, g7, g8⟩ :=
    runBatchesAux_spec fetch sigma output_folder start_row batch_size metadata_df hperm
      ((metadata_df.length - start_row + batch_size - 1) / batch_size) 0
      ⟨metadata_df, [], [], [], [], []⟩ rfl rfl
  obtain ⟨i1, i2, i3, i4, i5, i6, i7, i8⟩ :=
    runBatchesAux_spec fetch (fun _ l => l) output_folder start_row batch_size metadata_df
      (fun _ l => List.Perm.refl l)
      ((metadata_df.length - start_row + batch_size - 1) / batch_size) 0
      ⟨metadata_df, [], [], [], [], []⟩ rfl rfl
  have hA : (parallel_scrape_movies fetch sigma (fun _ => true) output_folder metadata_df
      start_row batch_size max_workers).state.all_movies_data =
      amdSpec fetch sigma output_folder metadata_df start_row batch_size 0
        ((metadata_df.length - start_row + batch_size - 1) / batch_size) := by
    rw [parallel_scrape_movies_state, g6]
    rfl
  have hB : (parallel_scrape_movies fetch (fun _ l => l) (fun _ => true) output_folder
      metadata_df start_row batch_size max_workers).state.all_movies_data =
      amdSpec fetch (fun _ l => l) output_folder metadata_df start_row batch_size 0
        ((metadata_df.length - start_row + batch_size - 1) / batch_size) := by
    rw [parallel_scrape_movies_state, i6]
    rfl
  have hp := amdSpec_perm fetch sigma output_folder metadata_df start_row batch_size hperm
    ((metadata_df.length - start_row + batch_size - 1) / batch_size) 0
  rw [hA, hB]
  exact ⟨hp, hp.join⟩

theorem c2_completion_order_witness :
    ((parallel_scrape_movies (fun _ _ => FetchResult.failure "e") (fun _ l => l.reverse)
        (fun _ => true) [] [⟨"A", 2015, none⟩] 0 1 1).state.all_movies_data).Perm
      ((parallel_scrape_movies (fun _ _ => FetchResult.failure "e") (fun _ l => l)
        (fun _ => true) [] [⟨"A", 2015, none⟩] 0 1 1).state.all_movies_data) ∧
    ((parallel_scrape_movies (fun _ _ => FetchResult.failure "e") (fun _ l => l.reverse)
        (fun _ => true) [] [⟨"A", 2015, none⟩] 0 1 1).state.all_movies_data.flatten).Perm
      ((parallel_scrape_movies (fun _ _ => FetchResult.failure "e") (fun _ l => l)
        (fun _ => true) [] [⟨"A", 2015, none⟩] 0 1 1).state.all_movies_data.flatten) :=
  c2_completion_order_content (fun _ _ => FetchResult.failure "e") (fun _ l => l.reverse)
    [] [⟨"A", 2015, none⟩] 0 1 1 (fun _ l => List.reverse_perm l) (by decide) (by decide)

/-- C2 counterexample: with two entries in one batch and the legitimate
completion order that reverses the submission order, the combined
dataset is `[recB, recA]`, while the identity completion order gives
`[recA, recB]` — the combined dataset's row order is the completion
order, not catalog-traversal order, and it is not independent of the
completion order. -/
theorem c2_counterexample :
    (parallel_scrape_movies
        (fun nm _ => if nm = "A" then FetchResult.success [[("Movie_Name", "A")]]
          else FetchResult.success [[("Movie_Name", "B")]])
        (fun _ l => l.reverse) (fun _ => true) []
        [⟨"A", 2015, none⟩, ⟨"B", 2015, none⟩] 0 2 1).combined =
      some [[("Movie_Name", "B")], [("Movie_Name", "A")]] ∧
    (parallel_scrape_movies
        (fun nm _ => if nm = "A" then FetchResult.success [[("Movie_Name", "A")]]
          else FetchResult.success [[("Movie_Name", "B")]])
        (fun _ l => l) (fun _ => true) []
        [⟨"A", 2015, none⟩, ⟨"B", 2015, none⟩] 0 2 1).combined =
      some [[("Movie_Name", "A")], [("Movie_Name", "B")]] ∧
    ([[("Movie_Name", "B")], [("Movie_Name", "A")]] : List Record) ≠
      [[("Movie_Name", "A")], [("Movie_Name", "B")]] :=
  ⟨by decide, by decide, by decide⟩

/-! ## C4: a per-batch persistence failure aborts the run -/

theorem runBatchesAux_absorb (fetch : String → Int → FetchResult)
    (sigma : Nat → List (Nat × Entry) → List (Nat × Entry))
    (persistOk : Nat → Bool) (output_folder : List Char)
    (start_row batch_size : Nat) :
    ∀ (n k : Nat) (st : RunState) (e : String),
      runBatchesAux fetch sigma persistOk output_folder start_row batch_size
        n k (st, some e) = (st, some e) := by
  intro n
  induction n with
  | zero => intro k st e; rfl
  | succ n ih =>
    intro k st e
    simp only [runBatchesAux]

theorem batchStep_snd_batchNums (fetch : String → Int → FetchResult)
    (sigma : Nat → List (Nat × Entry) → List (Nat × Entry))
    (persistOk : Nat → Bool) (output_folder : List Char)
    (start_row batch_size : Nat) (st : RunState) (k : Nat)
    (out1 : RunState) (out2 : Option String)
    (hout : batchStep fetch sigma persistOk output_folder start_row batch_size st k =
      (out1, out2)) :
    (out1 = st ∧ out2 = none) ∨
    (out1.batchNums = st.batchNums ++ [k] ∧
      out2 = (if persistOk k then none else some "persist failed")) := by
  simp only [batchStep] at hout
  by_cases hbd : (iloc st.metadata (start_row + k * batch_size)
      (min (start_row + k * batch_size + batch_size) st.metadata.length)).filter
        (fun p => p.2.daily_box_office_path = none) = []
  · rw [if_pos hbd] at hout
    injection hout with h1 h2
    exact Or.inl ⟨h1.symm, h2.symm⟩
  · rw [if_neg hbd] at hout
    by_cases hp : persistOk k
    · rw [if_pos hp] at hout
      injection hout with h1 h2
      refine Or.inr ⟨?_, ?_⟩
      · rw [← h1, foldl_applyResult_batchNums]
      · rw [← h2, if_pos hp]
    · rw [if_neg hp] at hout
      injection hout with h1 h2
      refine Or.inr ⟨?_, ?_⟩
      · rw [← h1, foldl_applyResult_batchNums]
      · rw [← h2, if_neg hp]

theorem runBatchesAux_persist (fetch : String → Int → FetchResult)
    (sigma : Nat → List (Nat × Entry) → List (Nat × Entry))
    (persistOk : Nat → Bool) (output_folder : List Char)
    (start_row batch_size : Nat) :
    ∀ (n k : Nat) (st : RunState),
      (∀ j ∈ st.batchNums, persistOk j = true) →
      (runBatchesAux fetch sigma persistOk output_folder start_row batch_size
        n k (st, none)).2 = none →
      ∀ j ∈ (runBatchesAux fetch sigma persistOk output_folder start_row batch_size
        n k (st, none)).1.batchNums, persistOk j = true := by
  intro n
  induction n with
  | zero =>
    intro k st hinv _ j hj
    exact hinv j hj
  | succ n ih =>
    intro k st hinv hres j hj
    rcases hstep : batchStep fetch sigma persistOk output_folder start_row batch_size st k
      with ⟨o1, o2⟩
    have hred : runBatchesAux fetch sigma persistOk output_folder start_row batch_size
        (n + 1) k (st, none) =
        runBatchesAux fetch sigma persistOk output_folder start_row batch_size
          n (k + 1) (o1, o2) := by
      simp only [runBatchesAux]
      rw [hstep]
    rw [hred] at hres hj
    rcases batchStep_snd_batchNums fetch sigma persistOk output_folder start_row batch_size
        st k o1 o2 hstep with ⟨h1, h2⟩ | ⟨h1, h2⟩
    · subst h1
      subst h2
      exact ih (k + 1) _ hinv hres j hj
    · subst h2
      by_cases hp : persistOk k
      · rw [if_pos hp] at hres hj
        refine ih (k + 1) o1 ?_ hres j hj
        intro j' hj'
        rw [h1] at hj'
        rcases List.mem_append.mp hj' with h | h
        · exact hinv j' h
        · rw [List.mem_singleton.mp h]
          exact hp
      · rw [if_neg hp] at hres
        rw [runBatchesAux_absorb] at hres
        cases hres

/-- C4 (amended): a per-batch persistence failure is not tolerated: the
exception propagates and aborts the run.  Consequently, a run that
finishes without an exception (`aborted = none`) had a successful
persistence step after every batch it actually processed; when a
persist raises, later batches are never fetched (see the
counterexample). -/
theorem c4_persist_failure_aborts (fetch : String → Int → FetchResult)
    (sigma : Nat → List (Nat × Entry) → List (Nat × Entry))
    (persistOk : Nat → Bool) (output_folder : List Char)
    (metadata_df : List Entry) (start_row batch_size max_workers : Nat)
    (hdone : (parallel_scrape_movies fetch sigma persistOk output_folder metadata_df
      start_row batch_size max_workers).aborted = none) :
    ∀ j ∈ (parallel_scrape_movies fetch sigma persistOk output_folder metadata_df
      start_row batch_size max_workers).state.batchNums, persistOk j = true := by
  rw [parallel_scrape_movies_aborted] at hdone
  rw [parallel_scrape_movies_state]
  refine runBatchesAux_persist fetch sigma persistOk output_folder start_row batch_size
    ((metadata_df.length - start_row + batch_size - 1) / batch_size) 0
    ⟨metadata_df, [], [], [], [], []⟩ ?_ hdone
  intro j hj
  cases hj

theorem c4_persist_witness :
    ((fun n : Nat => (n < 5 : Bool)) 0) = true :=
  c4_persist_failure_aborts (fun _ _ => FetchResult.failure "e") (fun _ l => l)
    (fun n => n < 5) [] [⟨"A", 2015, none⟩] 0 1 1 (by decide) 0 (by decide)

/-- C4 counterexample: with two unprocessed entries, batch size 1 and a
persistence step that raises after batch 0, the run aborts: `aborted`
is set and entry 1 — which belongs to a later batch — is never
submitted to the Fetcher, although both entries are unprocessed.  The
claimed behaviour (error reported, later batches still processed) does
not hold. -/
theorem c4_counterexample :
    (parallel_scrape_movies (fun _ _ => FetchResult.success [[("k", "v")]]) (fun _ l => l)
        (fun n => n ≠ 0) [] [⟨"A", 2015, none⟩, ⟨"B", 2015, none⟩] 0 1 1).aborted =
      some "persist failed" ∧
    (parallel_scrape_movies (fun _ _ => FetchResult.success [[("k", "v")]]) (fun _ l => l)
        (fun n => n ≠ 0) [] [⟨"A", 2015, none⟩, ⟨"B", 2015, none⟩] 0 1 1).state.fetched =
      [0] ∧
    filteredIndices [⟨"A", 2015, none⟩, ⟨"B", 2015, none⟩] 0 = [0, 1] :=
  ⟨by decide, by decide, by decide⟩

/-! ## C7: idempotent restart -/

theorem runBatchesAux_all_marked (fetch : String → Int → FetchResult)
    (sigma : Nat → List (Nat × Entry) → List (Nat × Entry))
    (persistOk : Nat → Bool) (output_folder : List Char)
    (start_row batch_size : Nat) (md' : List Entry)
    (hmarked : ∀ i, start_row ≤ i → i < md'.length → markedAt md' i) :
    ∀ (n k : Nat) (st : RunState), st.metadata = md' →
      runBatchesAux fetch sigma persistOk output_folder start_row batch_size
        n k (st, none) = (st, none) := by
  intro n
  induction n with
  | zero => intro k st _; rfl
  | succ n ih =>
    intro k st hst
    have hbd : (iloc st.metadata (start_row + k * batch_size)
        (min (start_row + k * batch_size + batch_size) st.metadata.length)).filter
          (fun p => p.2.daily_box_office_path = none) = [] := by
      rw [List.filter_eq_nil]
      intro p hp
      obtain ⟨hp1, hp2, hp3⟩ := mem_iloc hp
      rw [hst] at hp2 hp3
      have hminr := min_le_right (start_row + k * batch_size + batch_size) md'.length
      have hlt : p.1 < md'.length := by omega
      have hge : start_row ≤ p.1 := le_trans (Nat.le_add_right _ _) hp1
      obtain ⟨e, he, hm⟩ := hmarked p.1 hge hlt
      rw [hp3] at he
      injection he with he'
      subst he'
      simp only [decide_eq_true_iff]
      intro hnone
      rw [hnone] at hm
      cases hm
    have hstep : batchStep fetch sigma persistOk output_folder start_row batch_size st k =
        (st, none) := by
      simp only [batchStep]
      rw [if_pos hbd]
    have hred : runBatchesAux fetch sigma persistOk output_folder start_row batch_size
        (n + 1) k (st, none) =
        runBatchesAux fetch sigma persistOk output_folder start_row batch_size
          n (k + 1) (st, none) := by
      simp only [runBatchesAux]
      rw [hstep]
    rw [hred]
    exact ih (k + 1) st hst

/-- C7 (amended): when every fetch of the first run succeeds, the first
run marks every entry at or after the start offset, so a second run on
the resulting catalog submits nothing to the Fetcher (zero fetch
operations).  In general the second run re-fetches exactly the entries
whose fetch failed in the first run — their markers stay unset (see the
counterexample). -/
theorem c7_second_run_no_fetch (fetch : String → Int → FetchResult)
    (sigma sigma₂ : Nat → List (Nat × Entry) → List (Nat × Entry))
    (output_folder output_folder₂ : List Char) (metadata_df : List Entry)
    (start_row batch_size max_workers max_workers₂ : Nat)
    (hperm : ∀ k l, (sigma k l).Perm l) (hbs : 1 ≤ batch_size)
    (hall : allSuccess fetch) :
    (parallel_scrape_movies fetch sigma₂ (fun _ => true) output_folder₂
        (parallel_scrape_movies fetch sigma (fun _ => true) output_folder metadata_df
          start_row batch_size max_workers).state.metadata
        start_row batch_size max_workers₂).state.fetched = [] := by
  obtain ⟨h1, h2, h3, h4, h5, h6, h7, h8⟩ :=
    runBatchesAux_spec fetch sigma output_folder start_row batch_size metadata_df hperm
      ((metadata_df.length - start_row + batch_size - 1) / batch_size) 0
      ⟨metadata_df, [], [], [], [], []⟩ rfl rfl
  have hstate := parallel_scrape_movies_state fetch sigma (fun _ => true) output_folder
    metadata_df start_row batch_size max_workers
  have hmin : min (bStart start_row batch_size
      (0 + (metadata_df.length - start_row + batch_size - 1) / batch_size))
      metadata_df.length = metadata_df.length := by
    refine min_eq_right ?_
    rw [bStart, Nat.zero_add]
    exact total_batches_covers metadata_df.length start_row batch_size hbs
  have hb0 : bStart start_row batch_size 0 = start_row := by
    rw [bStart]
    omega
  have hmarked : ∀ i, start_row ≤ i →
      i < (parallel_scrape_movies fetch sigma (fun _ => true) output_folder metadata_df
        start_row batch_size max_workers).state.metadata.length →
      markedAt (parallel_scrape_movies fetch sigma (fun _ => true) output_folder metadata_df
        start_row batch_size max_workers).state.metadata i := by
    intro i hi hilen
    rw [hstate] at hilen ⊢
    rw [h2] at hilen
    refine h8 hall i ?_ ?_
    · rw [hb0]
      exact hi
    · rw [hmin]
      exact hilen
  rw [parallel_scrape_movies_state fetch sigma₂ (fun _ => true) output_folder₂
    ((parallel_scrape_movies fetch sigma (fun _ => true) output_folder metadata_df
      start_row batch_size max_workers).state.metadata) start_row batch_size max_workers₂]
  rw [runBatchesAux_all_marked fetch sigma₂ (fun _ => true) output_folder₂ start_row
    batch_size _ hmarked _ 0
    (⟨(parallel_scrape_movies fetch sigma (fun _ => true) output_folder metadata_df
      start_row batch_size max_workers).state.metadata, [], [], [], [], []⟩ : RunState) rfl]

theorem c7_second_run_witness :
    (parallel_scrape_movies (fun _ _ => FetchResult.success [[("k", "v")]]) (fun _ l => l)
        (fun _ => true) []
        (parallel_scrape_movies (fun _ _ => FetchResult.success [[("k", "v")]]) (fun _ l => l)
          (fun _ => true) [] [⟨"A", 2015, none⟩] 0 1 1).state.metadata
        0 1 1).state.fetched = [] :=
  c7_second_run_no_fetch (fun _ _ => FetchResult.success [[("k", "v")]]) (fun _ l => l)
    (fun _ l => l) [] [] [⟨"A", 2015, none⟩] 0 1 1 1
    (fun _ l => List.Perm.refl l) (by decide) (fun nm yr => ⟨[[("k", "v")]], rfl⟩)

/-- C7 counterexample: an entry whose fetch fails in the first run gets
no completion marker, so an unchanged second run submits it to the
Fetcher again — the second run performs one fetch operation, not
zero. -/
theorem c7_counterexample :
    (parallel_scrape_movies (fun _ _ => FetchResult.failure "err") (fun _ l => l)
        (fun _ => true) []
        (parallel_scrape_movies (fun _ _ => FetchResult.failure "err") (fun _ l => l)
          (fun _ => true) [] [⟨"A", 2015, none⟩] 0 1 1).state.metadata
        0 1 1).state.fetched = [0] ∧
    ([0] : List Nat) ≠ [] :=
  ⟨by decide, by decide⟩
